import Mathlib

/-!
Verification of the pdfconverter repository's layout-preserving translation
spec against its JavaScript sources.

The frontend sources under `src/js` (converters.js, processing.js) and the
unnamed duplicate `src/unnamed/part_000` are shallowly embedded below.
JavaScript numbers are modelled as rationals where fractional arithmetic
matters (image scaling) and as naturals where the source only ever handles
small non-negative integers (page counters, y cursors).  Browser and
library effects (canvas rendering, DOM reads, blob URLs) are opaque to the
verified logic and appear as explicit function parameters or record fields.
The backend translation pipeline (translation client pool, layout fitter,
orchestrator propagation policy) is deployed behind `BACKEND_URL` and its
code is not in this repository's `src/`; those components are modelled
from the spec, each marked `Modelled from the spec:` in its doc comment.
-/

/-- A text run as delivered by `page.getTextContent().items` in pdf.js:
the embedding keeps the single field the sources read, `str`. -/
structure TextItem where
  str : String
  deriving DecidableEq, Repr

/-- A page's extracted text content: the `items` array of the source. -/
abbrev TextPage := List TextItem

/-- A produced HTML artifact: `{ name, blob-of-html }` from the sources.
`size` and `url` of the source records derive from the blob and are not
separately modelled. -/
structure HtmlFile where
  name : String
  html : String
  deriving DecidableEq, Repr

/-- A produced binary artifact: `{ name, blob }`; the blob is a byte list. -/
structure BlobFile where
  name : String
  data : List Nat
  deriving DecidableEq, Repr

/-- A PDF page as the converter loops see it: viewport dimensions plus
opaque rasterizable content. -/
structure PDFPage where
  width : ℚ
  height : ℚ
  content : List Nat
  deriving DecidableEq, Repr

/-- JavaScript `Array.prototype.join(' ')`: concatenation with a single
space between consecutive elements (empty elements still get separators). -/
def joinSp : List String → String
  | [] => ""
  | [s] => s
  | s :: rest => s ++ " " ++ joinSp rest

/-- JavaScript `String.prototype.replace(pat, rep)` with a string pattern:
replace the first occurrence only, return the input unchanged when the
pattern does not occur.  List-of-characters core; the call sites of the
sources always pass a non-empty pattern. -/
def replaceFirstL (pat rep : List Char) : List Char → List Char
  | [] => []
  | c :: rest =>
    if pat.isPrefixOf (c :: rest) then rep ++ (c :: rest).drop pat.length
    else c :: replaceFirstL pat rep rest

/-- String wrapper for `replaceFirstL`. -/
def replaceFirst (s pat rep : String) : String :=
  ⟨replaceFirstL pat.data rep.data s.data⟩

namespace Converters

/-- The fixed HTML header of `pdfToWord` (converters.js line 28). -/
def htmlHeader : String :=
  "<!DOCTYPE html><html><head><meta charset=\"UTF-8\"><style>body\x7bfont-family:Arial;margin:40px;\x7d.page\x7bpage-break-after:always;margin-bottom:30px;\x7d</style></head><body>"

/-- converters.js line 33, the interpolated paragraph:
`tc.items.map(x => x.str).join(' ')`. -/
def pageParagraph (items : TextPage) : String :=
  joinSp (items.map TextItem.str)

/-- converters.js line 33, one page's `<div>` block. -/
def pageDiv (i : Nat) (items : TextPage) : String :=
  "<div class=\"page\"><h3>Sayfa " ++ toString i ++ "</h3><p>" ++ pageParagraph items ++ "</p></div>"

/-- converters.js lines 30-35: the `for (let i = 1; i <= pdf.numPages; i++)`
loop accumulating `html +=` page blocks, page numbers starting at 1. -/
def pagesHtml : Nat → List TextPage → String
  | _, [] => ""
  | i, p :: ps => pageDiv i p ++ pagesHtml (i + 1) ps

/-- converters.js lines 23-40, `pdfToWord`: build the HTML blob over all
pages and return a single artifact named by replacing `.pdf` with `.html`. -/
def pdfToWord (doc : List TextPage) (fileName : String) : List HtmlFile :=
  [⟨replaceFirst fileName ".pdf" ".html", htmlHeader ++ pagesHtml 1 doc ++ "</body></html>"⟩]

/-- converters.js lines 60-66, the drawing loop of `wordToPDF`: for each
wrapped line, if the y cursor exceeds 280 a page is added and y resets to
20; the line is drawn at the current (page, y) and y advances by 7.
Returns the list of (page index, y) draw positions; the x position is the
constant 15 of the source and the drawn string is the line itself. -/
def wordToPDFDraw : List String → Nat → Nat → List (Nat × Nat)
  | [], _, _ => []
  | _ :: rest, page, y =>
    let pg := if y > 280 then page + 1 else page
    let y0 := if y > 280 then 20 else y
    (pg, y0) :: wordToPDFDraw rest pg (y0 + 7)

/-- converters.js lines 58-66: `wordToPDF` starts drawing on the first page
with `y = 20`. -/
def wordToPDFDraws (lines : List String) : List (Nat × Nat) :=
  wordToPDFDraw lines 0 20

/-- Placement of an image on a page: `addImage(dataUrl, fmt, x, y, w, h)`. -/
structure Placement where
  x : ℚ
  y : ℚ
  w : ℚ
  h : ℚ
  deriving DecidableEq, Repr

/-- converters.js lines 85-91, the scaling and centering of `imagesToPDF`:
`iw = pw - 20`, `ih = img.height * iw / img.width`, clamped to
`ph - 20` with width rescaled when too tall, then drawn centered at
`((pw - iw) / 2, (ph - ih) / 2)`. -/
def imagePlacement (pw ph imgW imgH : ℚ) : Placement :=
  let iw := pw - 20
  let ih := imgH * iw / imgW
  if ih > ph - 20 then
    let ih2 := ph - 20
    let iw2 := imgW * ih2 / imgH
    ⟨(pw - iw2) / 2, (ph - ih2) / 2, iw2, ih2⟩
  else
    ⟨(pw - iw) / 2, (ph - ih) / 2, iw, ih⟩

/-- converters.js lines 108-126, the page loop of `pdfToImages`: page `i`
(1-based) is rendered and pushed as `sayfa_i.fmt`, in loop order.  The
render-to-blob chain (viewport, canvas, `toDataURL`, `fetch`) is the
opaque `render` parameter applied to the page and the chosen format. -/
def pdfToImagesLoop (render : String → PDFPage → List Nat) (fmt : String) :
    Nat → List PDFPage → List BlobFile
  | _, [] => []
  | i, p :: ps =>
    ⟨"sayfa_" ++ toString i ++ "." ++ fmt, render fmt p⟩ :: pdfToImagesLoop render fmt (i + 1) ps

/-- converters.js lines 100-131, `pdfToImages`: loop from page 1. -/
def pdfToImages (render : String → PDFPage → List Nat) (fmt : String)
    (pages : List PDFPage) : List BlobFile :=
  pdfToImagesLoop render fmt 1 pages

/-- converters.js lines 177-196, the page loop of `splitPDF`: page `i`
(1-based) is rendered into its own single-page jsPDF document and pushed
as `sayfa_i.pdf`, in loop order.  The render-and-repack chain (canvas,
`addImage`, `doc.output('blob')`) is the opaque `render` parameter. -/
def splitPDFLoop (render : PDFPage → List Nat) : Nat → List PDFPage → List BlobFile
  | _, [] => []
  | i, p :: ps =>
    ⟨"sayfa_" ++ toString i ++ ".pdf", render p⟩ :: splitPDFLoop render (i + 1) ps

/-- converters.js lines 169-200, `splitPDF`: loop from page 1. -/
def splitPDF (render : PDFPage → List Nat) (pages : List PDFPage) : List BlobFile :=
  splitPDFLoop render 1 pages

end Converters

namespace Part000

/-- src/unnamed/part_000 line 11, the fixed HTML header of its `pdfToWord`. -/
def htmlHeader : String :=
  "<!DOCTYPE html><html><head><meta charset=\"UTF-8\"><style>body\x7bfont-family:Arial;margin:40px;\x7d.page\x7bpage-break-after:always;margin-bottom:30px;\x7d</style></head><body>"

/-- src/unnamed/part_000 line 16: `tc.items.map(x => x.str).join(' ')`. -/
def pageParagraph (items : TextPage) : String :=
  joinSp (items.map TextItem.str)

/-- src/unnamed/part_000 line 16, one page's `<div>` block. -/
def pageDiv (i : Nat) (items : TextPage) : String :=
  "<div class=\"page\"><h3>Sayfa " ++ toString i ++ "</h3><p>" ++ pageParagraph items ++ "</p></div>"

/-- src/unnamed/part_000 lines 13-18, the page loop of its `pdfToWord`. -/
def pagesHtml : Nat → List TextPage → String
  | _, [] => ""
  | i, p :: ps => pageDiv i p ++ pagesHtml (i + 1) ps

/-- src/unnamed/part_000 lines 6-23, `pdfToWord`. -/
def pdfToWord (doc : List TextPage) (fileName : String) : List HtmlFile :=
  [⟨replaceFirst fileName ".pdf" ".html", htmlHeader ++ pagesHtml 1 doc ++ "</body></html>"⟩]

end Part000

namespace Processing

/-- processing.js line 145: `endpoint = format === 'html' ? '/translate-html' : '/translate'`. -/
def translateEndpoint (format : String) : String :=
  if format = "html" then "/translate-html" else "/translate"

/-- processing.js line 166: `ext = format === 'html' ? '.html' : '.pdf'`. -/
def translateExt (format : String) : String :=
  if format = "html" then ".html" else ".pdf"

/-- processing.js line 167:
`fileName = file.name.replace('.pdf', '_ceviri_' + targetLang + ext)`. -/
def translateFileName (fileName targetLang format : String) : String :=
  replaceFirst fileName ".pdf" ("_ceviri_" ++ targetLang ++ translateExt format)

end Processing

/-- Empty-or-whitespace test on a run's text; the empty string counts. -/
def isWhitespaceOnly (s : String) : Bool :=
  s.data.all Char.isWhitespace

/-- Modelled from the spec: "Spans with empty or whitespace-only text are
filtered out." (spec section 4.1) applied to the page paragraph of
`pdfToWord` — what the output paragraph would be if the extractor had
dropped empty and whitespace-only runs before joining. -/
def specFilteredParagraph (items : TextPage) : String :=
  joinSp ((items.filter (fun t => ! isWhitespaceOnly t.str)).map TextItem.str)

namespace TranslatePool

/-- Outcome of one translation `Translate` call: text plus the soft-failure
marker that records fallback exhaustion. -/
structure TranslateResult where
  text : String
  softFailed : Bool
  deriving DecidableEq, Repr

/-- Modelled from the spec: one provider attempted up to `attempts` times
("retry with exponential backoff up to a small fixed attempt count",
spec section 4.2); backoff delays are timing and do not affect the value. -/
def tryProvider : Nat → (String → Option String) → String → Option String
  | 0, _, _ => none
  | n + 1, p, t =>
    match p t with
    | some r => some r
    | none => tryProvider n p t

/-- Modelled from the spec: the Translation Client Pool's
`Translate(text) -> (text, error)` over an ordered provider fallback list
(spec section 4.2).  Each provider is retried, then the next provider is
attempted; "if all providers are exhausted, return the original
(untranslated) text paired with a soft-failure marker rather than an
error".  The return type is a total result — there is no error channel. -/
def Translate (attempts : Nat) (text : String) :
    List (String → Option String) → TranslateResult
  | [] => ⟨text, true⟩
  | p :: rest =>
    match tryProvider attempts p text with
    | some r => ⟨r, false⟩
    | none => Translate attempts text rest

end TranslatePool

namespace LayoutFitter

/-- A span's bounding box in document points (width, height). -/
structure Box where
  w : Nat
  h : Nat
  deriving DecidableEq, Repr

/-- Modelled from the spec: the Layout Fitter's overflow measurement
("measure the translated text's rendered width/height at that size",
spec section 4.3) — text of length `len` at font size `s` fits box `b`
when its occupied extent `len * s` is within the box capacity. -/
def fitsAt (b : Box) (len s : Nat) : Bool :=
  len * s ≤ b.w * b.h

/-- Modelled from the spec: the deterministic shrink ladder ("shrink font
size in small decrements down to a configured floor", spec section 4.3):
candidate sizes from the original size downward in fixed steps, never
below the floor. -/
def sizeCandidates (orig step floorSize : Nat) : List Nat :=
  (List.range ((orig - floorSize) / step + 1)).map (fun i => orig - i * step)

/-- Modelled from the spec: the chosen RenderPlan font size — the first
(largest) candidate on the shrink ladder at which the text fits, or the
floor size when even the floor overflows (spec section 4.3 steps 1-2). -/
def chooseFontSize (b : Box) (orig step floorSize len : Nat) : Nat :=
  (((sizeCandidates orig step floorSize).filter (fun s => fitsAt b len s)).head?).getD floorSize

end LayoutFitter

namespace Orchestrator

/-- Non-input error kinds of the spec's taxonomy (spec section 7). -/
inductive ErrKind where
  | provider
  | fit
  | resource
  deriving DecidableEq, Repr

/-- Input-error kinds: the only fatal ones (spec section 7). -/
inductive InputError where
  | malformed
  | emptyFile
  deriving DecidableEq, Repr

/-- A span entering the pipeline: source text and reading-order index. -/
structure Span where
  idx : Nat
  text : String
  deriving DecidableEq, Repr

/-- Outcome of the translate-and-fit work on one span. -/
inductive SpanOutcome where
  | translated (t : String)
  | failed (k : ErrKind)
  deriving DecidableEq, Repr

/-- A rendered region of the output artifact. -/
structure Region where
  idx : Nat
  text : String
  deriving DecidableEq, Repr

/-- An itemized degradation record (spec section 6). -/
structure Degradation where
  idx : Nat
  kind : ErrKind
  deriving DecidableEq, Repr

/-- The complete artifact: rendered regions plus itemized degradations. -/
structure Artifact where
  regions : List Region
  degradations : List Degradation
  deriving DecidableEq, Repr

/-- Modelled from the spec: per-span absorption of non-input errors
(spec sections 4.4, 7) — a failed span keeps its original text and the
failure is recorded as a degradation, never raised. -/
def processSpan (work : Span → SpanOutcome) (s : Span) : Region × Option Degradation :=
  match work s with
  | .translated t => (⟨s.idx, t⟩, none)
  | .failed k => (⟨s.idx, s.text⟩, some ⟨s.idx, k⟩)

/-- Modelled from the spec: the Orchestrator's propagation policy
(spec sections 4.5, 7): a malformed/unreadable document or an empty file
is a fatal input error; otherwise every span is absorbed into the
artifact, with non-input failures converted to degradations. -/
def processRequest (work : Span → SpanOutcome) :
    Option (List Span) → Except InputError Artifact
  | none => .error .malformed
  | some [] => .error .emptyFile
  | some spans =>
    .ok ⟨spans.map (fun s => (processSpan work s).1),
         spans.filterMap (fun s => (processSpan work s).2)⟩

end Orchestrator

/-! ## Helper lemmas -/

theorem string_append_assoc (a b c : String) : a ++ b ++ c = a ++ (b ++ c) := by
  show String.mk ((a.data ++ b.data) ++ c.data) = String.mk (a.data ++ (b.data ++ c.data))
  exact congrArg String.mk (List.append_assoc a.data b.data c.data)

theorem wordToPDFDraw_bounds (lines : List String) (page y : Nat) (hy : 20 ≤ y)
    (p q : Nat) (h : (p, q) ∈ Converters.wordToPDFDraw lines page y) :
    20 ≤ q ∧ q ≤ 280 := by
  induction lines generalizing page y with
  | nil => simp [Converters.wordToPDFDraw] at h
  | cons l rest ih =>
    by_cases hgt : y > 280
    · rw [Converters.wordToPDFDraw] at h
      simp only [if_pos hgt, List.mem_cons] at h
      rcases h with h | h
      · have hq : q = 20 := congrArg Prod.snd h
        omega
      · exact ih (page + 1) (20 + 7) (by omega) h
    · rw [Converters.wordToPDFDraw] at h
      simp only [if_neg hgt, List.mem_cons] at h
      rcases h with h | h
      · have hq : q = y := congrArg Prod.snd h
        omega
      · exact ih page (y + 7) (by omega) h

theorem joinSp_infix (s : String) (l : List String) (h : s ∈ l) :
    s.data <:+: (joinSp l).data := by
  induction l with
  | nil => simp at h
  | cons x rest ih =>
    cases rest with
    | nil =>
      have hx : s = x := by simpa using h
      subst hx
      exact List.infix_rfl
    | cons y t =>
      rcases List.mem_cons.mp h with hx | hmem
      · subst hx
        refine ⟨[], (" " ++ joinSp (y :: t)).data, ?_⟩
        show [] ++ s.data ++ (" ".data ++ (joinSp (y :: t)).data) =
          ((s ++ " ") ++ joinSp (y :: t)).data
        simp [List.append_assoc]
      · obtain ⟨u, v, huv⟩ := ih hmem
        refine ⟨(x ++ " ").data ++ u, v, ?_⟩
        show ((x.data ++ " ".data) ++ u) ++ s.data ++ v = ((x ++ " ") ++ joinSp (y :: t)).data
        rw [show ((x ++ " ") ++ joinSp (y :: t)).data =
          (x.data ++ " ".data) ++ (joinSp (y :: t)).data from rfl, ← huv]
        simp [List.append_assoc]

theorem pagesHtml_agrees (i : Nat) (ps : List TextPage) :
    Converters.pagesHtml i ps = Part000.pagesHtml i ps := by
  induction ps generalizing i with
  | nil => rfl
  | cons p rest ih =>
    simp [Converters.pagesHtml, Part000.pagesHtml, Converters.pageDiv, Part000.pageDiv,
      Converters.pageParagraph, Part000.pageParagraph, ih]

theorem tryProvider_none (n : Nat) (p : String → Option String) (t : String)
    (hp : p t = none) : TranslatePool.tryProvider n p t = none := by
  induction n with
  | zero => rfl
  | succ k ih => simp [TranslatePool.tryProvider, hp, ih]

/-! ## Claim theorems -/

/-- Claim C9: every line drawn by `wordToPDF` is placed at a y-coordinate
between 20 and 280 inclusive; whenever the running y-coordinate exceeds
280 a new page is started and y resets to 20, so no line is ever drawn
below y = 280 on any page (converters.js lines 59-66). -/
theorem wordToPDF_draw_y_bounds (lines : List String) (p y : Nat)
    (h : (p, y) ∈ Converters.wordToPDFDraws lines) : 20 ≤ y ∧ y ≤ 280 :=
  wordToPDFDraw_bounds lines 0 20 (by omega) p y h

theorem wordToPDF_draw_y_bounds_witness :
    ((1, 20) ∈ Converters.wordToPDFDraws (List.replicate 40 "x")) ∧ (20 ≤ 20 ∧ 20 ≤ 280) :=
  ⟨by decide, wordToPDF_draw_y_bounds (List.replicate 40 "x") 1 20 (by decide)⟩

/-- Claim C10: the `pdfToWord` of src/js/converters.js and the `pdfToWord`
of src/unnamed/part_000 are extensionally equal: same per-page headings,
same space-joined text content, same output name, for every input. -/
theorem pdfToWord_versions_equal (doc : List TextPage) (fileName : String) :
    Converters.pdfToWord doc fileName = Part000.pdfToWord doc fileName := by
  simp [Converters.pdfToWord, Part000.pdfToWord, Converters.htmlHeader, Part000.htmlHeader,
    pagesHtml_agrees]

/-- Claim C5, counterexample: `pdfToWord` (converters.js line 33) joins all
text runs with single spaces and does not filter whitespace-only runs; on
the page `["a", " ", "b"]` the produced paragraph is "a   b", which
differs from the "a b" that the spec's filtering would produce — the
whitespace-only run does appear in the output. -/
theorem pdfToWord_whitespace_counterexample :
    Converters.pageParagraph [⟨"a"⟩, ⟨" "⟩, ⟨"b"⟩] = "a   b" ∧
    specFilteredParagraph [⟨"a"⟩, ⟨" "⟩, ⟨"b"⟩] = "a b" ∧
    Converters.pageParagraph [⟨"a"⟩, ⟨" "⟩, ⟨"b"⟩] ≠
      specFilteredParagraph [⟨"a"⟩, ⟨" "⟩, ⟨"b"⟩] := by
  refine ⟨by decide, by decide, by decide⟩

/-- Claim C5, amended: the extractor of `pdfToWord` does not filter empty
or whitespace-only text runs; every run of the page, whitespace-only runs
included, is joined into the produced paragraph (its text occurs verbatim
as a contiguous segment of the output). -/
theorem pdfToWord_runs_not_filtered (items : TextPage) (t : TextItem) (h : t ∈ items) :
    t.str.data <:+: (Converters.pageParagraph items).data :=
  joinSp_infix t.str (items.map TextItem.str) (List.mem_map_of_mem TextItem.str h)

theorem pdfToWord_runs_not_filtered_witness :
    ((⟨" "⟩ : TextItem) ∈ ([⟨"a"⟩, ⟨" "⟩, ⟨"b"⟩] : TextPage)) ∧
    (" " : String).data <:+: (Converters.pageParagraph [⟨"a"⟩, ⟨" "⟩, ⟨"b"⟩]).data :=
  ⟨by decide, pdfToWord_runs_not_filtered [⟨"a"⟩, ⟨" "⟩, ⟨"b"⟩] ⟨" "⟩ (by decide)⟩

/-- Claim C2: only input errors (malformed/unreadable document, empty
file) terminate a request; every other error kind is absorbed into
degradations, so the caller receives either a complete artifact — one
region per span, no partial loss — or a single input-rejection error
(modelled from spec sections 4.5 and 7; the propagation policy lives in
the backend pipeline, absent from src/). -/
theorem processRequest_error_policy (work : Orchestrator.Span → Orchestrator.SpanOutcome)
    (doc : Option (List Orchestrator.Span)) :
    (∃ e, Orchestrator.processRequest work doc = .error e ∧ (doc = none ∨ doc = some [])) ∨
    (∃ spans a, doc = some spans ∧ Orchestrator.processRequest work doc = .ok a ∧
      a.regions.length = spans.length) := by
  match doc with
  | none => exact Or.inl ⟨.malformed, rfl, Or.inl rfl⟩
  | some [] => exact Or.inl ⟨.emptyFile, rfl, Or.inr rfl⟩
  | some (s :: ss) =>
    refine Or.inr ⟨s :: ss, _, rfl, rfl, ?_⟩
    simp [List.length_map]

/-- Claim C1: when every translation provider fails, `Translate` returns
the original (untranslated) text together with the soft-failure marker;
its return type has no error channel, so the failure is never raised to
the caller as a hard request error (modelled from spec section 4.2; the
Translation Client Pool is backend code, absent from src/). -/
theorem translate_fallback_exhaustion (attempts : Nat) (text : String)
    (providers : List (String → Option String))
    (h : ∀ p ∈ providers, p text = none) :
    TranslatePool.Translate attempts text providers = ⟨text, true⟩ := by
  induction providers with
  | nil => rfl
  | cons p rest ih =>
    have hp : p text = none := h p (List.mem_cons_self p rest)
    simp only [TranslatePool.Translate, tryProvider_none attempts p text hp]
    exact ih (fun q hq => h q (List.mem_cons_of_mem p hq))

theorem translate_fallback_exhaustion_witness :
    (∀ p ∈ ([fun _ => none] : List (String → Option String)), p "Merhaba" = none) ∧
    TranslatePool.Translate 3 "Merhaba" [fun _ => none] = ⟨"Merhaba", true⟩ := by
  have h : ∀ p ∈ ([fun _ => none] : List (String → Option String)), p "Merhaba" = none := by
    intro p hp
    rw [List.mem_singleton] at hp
    subst hp
    rfl
  exact ⟨h, translate_fallback_exhaustion 3 "Merhaba" [fun _ => none] h⟩

theorem splitPDFLoop_length (render : PDFPage → List Nat) (j : Nat) (ps : List PDFPage) :
    (Converters.splitPDFLoop render j ps).length = ps.length := by
  induction ps generalizing j with
  | nil => rfl
  | cons p rest ih => simp [Converters.splitPDFLoop, ih]

theorem splitPDFLoop_getElem (render : PDFPage → List Nat) (j k : Nat) (ps : List PDFPage) :
    (Converters.splitPDFLoop render j ps)[k]? =
      (ps[k]?).map (fun p => ⟨"sayfa_" ++ toString (j + k) ++ ".pdf", render p⟩) := by
  induction ps generalizing j k with
  | nil => simp [Converters.splitPDFLoop]
  | cons p rest ih =>
    cases k with
    | zero => simp [Converters.splitPDFLoop]
    | succ m =>
      simp only [Converters.splitPDFLoop, List.getElem?_cons_succ]
      rw [ih (j + 1) m, show j + 1 + m = j + (m + 1) from by omega]

theorem pdfToImagesLoop_length (render : String → PDFPage → List Nat) (fmt : String)
    (j : Nat) (ps : List PDFPage) :
    (Converters.pdfToImagesLoop render fmt j ps).length = ps.length := by
  induction ps generalizing j with
  | nil => rfl
  | cons p rest ih => simp [Converters.pdfToImagesLoop, ih]

theorem pdfToImagesLoop_getElem (render : String → PDFPage → List Nat) (fmt : String)
    (j k : Nat) (ps : List PDFPage) :
    (Converters.pdfToImagesLoop render fmt j ps)[k]? =
      (ps[k]?).map (fun p => ⟨"sayfa_" ++ toString (j + k) ++ "." ++ fmt, render fmt p⟩) := by
  induction ps generalizing j k with
  | nil => simp [Converters.pdfToImagesLoop]
  | cons p rest ih =>
    cases k with
    | zero => simp [Converters.pdfToImagesLoop]
    | succ m =>
      simp only [Converters.pdfToImagesLoop, List.getElem?_cons_succ]
      rw [ih (j + 1) m, show j + 1 + m = j + (m + 1) from by omega]

theorem pdfToImagesLoop_names (render : String → PDFPage → List Nat) (fmt : String)
    (j : Nat) (ps : List PDFPage) :
    (Converters.pdfToImagesLoop render fmt j ps).map BlobFile.name =
      (List.range ps.length).map (fun k => "sayfa_" ++ toString (j + k) ++ "." ++ fmt) := by
  induction ps generalizing j with
  | nil => rfl
  | cons p rest ih =>
    rw [show (p :: rest).length = rest.length + 1 from rfl, List.range_succ_eq_map]
    simp only [Converters.pdfToImagesLoop, List.map_cons, List.map_map]
    refine congrArg₂ List.cons (by rw [Nat.add_zero]) ?_
    rw [ih (j + 1)]
    refine List.map_congr_left ?_
    intro k _
    simp only [Function.comp]
    rw [show j + 1 + k = j + (k + 1) from by omega]

/-- Claim C3: for every input document with N units, the outputs of the
cited reassembly loops contain exactly N rendered results: `splitPDF` and
`pdfToImages` (converters.js lines 169-200 and 100-131) each produce one
output per page, the k-th output rendered from the k-th page — no page
dropped, none duplicated. -/
theorem split_and_images_completeness (render1 : PDFPage → List Nat)
    (render2 : String → PDFPage → List Nat) (fmt : String) (pages : List PDFPage) :
    (Converters.splitPDF render1 pages).length = pages.length ∧
    (∀ k : Nat, (Converters.splitPDF render1 pages)[k]? =
      (pages[k]?).map (fun p => BlobFile.mk ("sayfa_" ++ toString (k + 1) ++ ".pdf") (render1 p))) ∧
    (Converters.pdfToImages render2 fmt pages).length = pages.length ∧
    (∀ k : Nat, (Converters.pdfToImages render2 fmt pages)[k]? =
      (pages[k]?).map (fun p =>
        BlobFile.mk ("sayfa_" ++ toString (k + 1) ++ "." ++ fmt) (render2 fmt p))) := by
  refine ⟨splitPDFLoop_length render1 1 pages, fun k => ?_,
    pdfToImagesLoop_length render2 fmt 1 pages, fun k => ?_⟩
  · rw [Converters.splitPDF, splitPDFLoop_getElem render1 1 k pages,
      show 1 + k = k + 1 from by omega]
  · rw [Converters.pdfToImages, pdfToImagesLoop_getElem render2 fmt 1 k pages,
      show 1 + k = k + 1 from by omega]

/-- Claim C4: `pdfToImages` (converters.js lines 100-131) lists its
rendered pages in original page-index order: the name sequence is exactly
`sayfa_1.fmt, ..., sayfa_N.fmt` in order, and the k-th output's payload is
the rendering of the k-th input page, so the i-th entry of the result
corresponds to the i-th input unit. -/
theorem pdfToImages_reading_order (render : String → PDFPage → List Nat) (fmt : String)
    (pages : List PDFPage) :
    (Converters.pdfToImages render fmt pages).map BlobFile.name =
      (List.range pages.length).map (fun k => "sayfa_" ++ toString (k + 1) ++ "." ++ fmt) ∧
    (∀ k : Nat, ((Converters.pdfToImages render fmt pages)[k]?).map BlobFile.data =
      (pages[k]?).map (fun p => render fmt p)) := by
  constructor
  · rw [Converters.pdfToImages, pdfToImagesLoop_names render fmt 1 pages]
    refine List.map_congr_left ?_
    intro k _
    rw [show 1 + k = k + 1 from by omega]
  · intro k
    rw [Converters.pdfToImages, pdfToImagesLoop_getElem render fmt 1 k pages, Option.map_map]
    rfl

theorem replaceFirstL_append (pat rep base : List Char) (hpat : pat ≠ [])
    (h : ∀ i, i < base.length → pat.isPrefixOf ((base ++ pat).drop i) = false) :
    replaceFirstL pat rep (base ++ pat) = base ++ rep := by
  induction base with
  | nil =>
    cases pat with
    | nil => exact absurd rfl hpat
    | cons c pr =>
      simp [replaceFirstL, List.isPrefixOf_iff_prefix, List.drop_length]
  | cons b bs ih =>
    have h0 : pat.isPrefixOf (b :: (bs ++ pat)) = false := by
      have := h 0 (by simp)
      simpa using this
    have hstep : replaceFirstL pat rep ((b :: bs) ++ pat) =
        b :: replaceFirstL pat rep (bs ++ pat) := by
      show (if pat.isPrefixOf (b :: (bs ++ pat)) then
          rep ++ (b :: (bs ++ pat)).drop pat.length
        else b :: replaceFirstL pat rep (bs ++ pat)) = _
      rw [if_neg (by simp [h0])]
    rw [hstep, List.cons_append]
    refine congrArg (List.cons b) (ih ?_)
    intro i hi
    have := h (i + 1) (by simpa using Nat.succ_lt_succ hi)
    simpa using this

theorem replaceFirst_at_end (base rep : String)
    (h : ∀ i, i < base.data.length →
      List.isPrefixOf ".pdf".data ((base.data ++ ".pdf".data).drop i) = false) :
    replaceFirst (base ++ ".pdf") ".pdf" rep = base ++ rep := by
  show String.mk (replaceFirstL ".pdf".data rep.data (base.data ++ ".pdf".data)) =
    String.mk (base.data ++ rep.data)
  exact congrArg String.mk (replaceFirstL_append ".pdf".data rep.data base.data (by decide) h)

/-- Claim C6: the caller's selected output mode determines the artifact:
`format = "html"` requests the `/translate-html` endpoint and names the
artifact `<base>_ceviri_<target>.html`; any other format requests
`/translate` and names it `<base>_ceviri_<target>.pdf`
(processing.js lines 129-178), provided the input name is `<base>.pdf`
with its only `.pdf` occurrence at the end. -/
theorem translate_format_selects_artifact (base targetLang format : String)
    (h : ∀ i, i < base.data.length →
      List.isPrefixOf ".pdf".data ((base.data ++ ".pdf".data).drop i) = false) :
    (format = "html" →
      Processing.translateEndpoint format = "/translate-html" ∧
      Processing.translateFileName (base ++ ".pdf") targetLang format =
        base ++ "_ceviri_" ++ targetLang ++ ".html") ∧
    (format ≠ "html" →
      Processing.translateEndpoint format = "/translate" ∧
      Processing.translateFileName (base ++ ".pdf") targetLang format =
        base ++ "_ceviri_" ++ targetLang ++ ".pdf") := by
  constructor
  · intro hf
    subst hf
    refine ⟨rfl, ?_⟩
    rw [Processing.translateFileName, replaceFirst_at_end base _ h]
    simp [Processing.translateExt, string_append_assoc]
  · intro hf
    refine ⟨if_neg hf, ?_⟩
    rw [Processing.translateFileName, replaceFirst_at_end base _ h,
      Processing.translateExt, if_neg hf]
    simp [string_append_assoc]

theorem translate_format_selects_artifact_witness :
    (∀ i, i < ("doc" : String).data.length →
      List.isPrefixOf (".pdf" : String).data
        ((("doc" : String).data ++ (".pdf" : String).data).drop i) = false) ∧
    (Processing.translateEndpoint "html" = "/translate-html" ∧
      Processing.translateFileName ("doc" ++ ".pdf") "tr" "html" =
        "doc" ++ "_ceviri_" ++ "tr" ++ ".html") := by
  have h : ∀ i, i < ("doc" : String).data.length →
      List.isPrefixOf (".pdf" : String).data
        ((("doc" : String).data ++ (".pdf" : String).data).drop i) = false := by decide
  exact ⟨h, (translate_format_selects_artifact "doc" "tr" "html" h).1 rfl⟩

theorem sizeCandidates_mem_bounds (orig step floorSize : Nat) (hf : floorSize ≤ orig) :
    ∀ s ∈ LayoutFitter.sizeCandidates orig step floorSize, floorSize ≤ s ∧ s ≤ orig := by
  intro s hs
  simp only [LayoutFitter.sizeCandidates, List.mem_map, List.mem_range] at hs
  obtain ⟨i, hi, rfl⟩ := hs
  have h1 : i * step ≤ orig - floorSize := by
    calc i * step ≤ ((orig - floorSize) / step) * step :=
        Nat.mul_le_mul_right step (by omega)
      _ ≤ orig - floorSize := Nat.div_mul_le_self _ _
  omega

theorem sizeCandidates_sorted (orig step floorSize : Nat) :
    (LayoutFitter.sizeCandidates orig step floorSize).Pairwise (fun a b => b ≤ a) := by
  refine List.Pairwise.map _ ?_ (List.pairwise_lt_range _)
  intro a b hab
  exact Nat.sub_le_sub_left (Nat.mul_le_mul_right step (Nat.le_of_lt hab)) orig

theorem head_ge_of_sorted_ge {l : List Nat} (hp : l.Pairwise (fun a b => b ≤ a))
    {x hd : Nat} (hh : l.head? = some hd) (hx : x ∈ l) : x ≤ hd := by
  cases l with
  | nil => simp at hh
  | cons a t =>
    have ha : hd = a := by simpa using hh.symm
    subst ha
    rcases List.mem_cons.mp hx with hx | hx
    · omega
    · exact (List.pairwise_cons.mp hp).1 x hx

theorem chooseFontSize_ge_floor (b : LayoutFitter.Box) (orig step floorSize len : Nat)
    (hf : floorSize ≤ orig) :
    floorSize ≤ LayoutFitter.chooseFontSize b orig step floorSize len := by
  rw [LayoutFitter.chooseFontSize]
  cases hl : (LayoutFitter.sizeCandidates orig step floorSize).filter
      (fun s => LayoutFitter.fitsAt b len s) with
  | nil => simp
  | cons x xs =>
    simp only [List.head?_cons, Option.getD_some]
    have hx : x ∈ (LayoutFitter.sizeCandidates orig step floorSize).filter
        (fun s => LayoutFitter.fitsAt b len s) := by
      rw [hl]
      exact List.mem_cons_self x xs
    exact (sizeCandidates_mem_bounds orig step floorSize hf x
      (List.mem_of_mem_filter hx)).1

/-- Claim C7: for a fixed bounding box, the Layout Fitter's chosen font
size is non-increasing as the translated text length increases, and it is
never reduced below the configured legibility floor (modelled from spec
section 4.3; the Layout Fitter is backend code, absent from src/ — the
cited `wordToPDF` contains no font-size logic). -/
theorem chooseFontSize_monotone_and_floored (b : LayoutFitter.Box)
    (orig step floorSize len1 len2 : Nat) (hf : floorSize ≤ orig) (hlen : len1 ≤ len2) :
    LayoutFitter.chooseFontSize b orig step floorSize len2 ≤
      LayoutFitter.chooseFontSize b orig step floorSize len1 ∧
    floorSize ≤ LayoutFitter.chooseFontSize b orig step floorSize len1 ∧
    floorSize ≤ LayoutFitter.chooseFontSize b orig step floorSize len2 := by
  refine ⟨?_, chooseFontSize_ge_floor b orig step floorSize len1 hf,
    chooseFontSize_ge_floor b orig step floorSize len2 hf⟩
  conv_lhs => rw [LayoutFitter.chooseFontSize]
  cases h2 : (LayoutFitter.sizeCandidates orig step floorSize).filter
      (fun s => LayoutFitter.fitsAt b len2 s) with
  | nil =>
    simp only [List.head?_nil, Option.getD_none]
    exact chooseFontSize_ge_floor b orig step floorSize len1 hf
  | cons s2 t2 =>
    simp only [List.head?_cons, Option.getD_some]
    have hs2 : s2 ∈ (LayoutFitter.sizeCandidates orig step floorSize).filter
        (fun s => LayoutFitter.fitsAt b len2 s) := by
      rw [h2]
      exact List.mem_cons_self s2 t2
    have hs2c := List.mem_of_mem_filter hs2
    have hs2f : LayoutFitter.fitsAt b len2 s2 = true := List.of_mem_filter hs2
    have hs1f : LayoutFitter.fitsAt b len1 s2 = true := by
      simp only [LayoutFitter.fitsAt, decide_eq_true_eq] at hs2f ⊢
      calc len1 * s2 ≤ len2 * s2 := Nat.mul_le_mul_right s2 hlen
        _ ≤ b.w * b.h := hs2f
    have hmem1 : s2 ∈ (LayoutFitter.sizeCandidates orig step floorSize).filter
        (fun s => LayoutFitter.fitsAt b len1 s) := List.mem_filter.mpr ⟨hs2c, hs1f⟩
    rw [LayoutFitter.chooseFontSize]
    cases h1 : (LayoutFitter.sizeCandidates orig step floorSize).filter
        (fun s => LayoutFitter.fitsAt b len1 s) with
    | nil =>
      rw [h1] at hmem1
      simp at hmem1
    | cons s1 t1 =>
      simp only [List.head?_cons, Option.getD_some]
      rw [h1] at hmem1
      refine head_ge_of_sorted_ge ?_ (l := s1 :: t1) (by simp) hmem1
      rw [← h1]
      exact (sizeCandidates_sorted orig step floorSize).filter _

theorem chooseFontSize_monotone_and_floored_witness :
    (7 ≤ 12 ∧ 50 ≤ 100) ∧
    (LayoutFitter.chooseFontSize ⟨100, 10⟩ 12 1 7 100 ≤
      LayoutFitter.chooseFontSize ⟨100, 10⟩ 12 1 7 50 ∧
    7 ≤ LayoutFitter.chooseFontSize ⟨100, 10⟩ 12 1 7 50 ∧
    7 ≤ LayoutFitter.chooseFontSize ⟨100, 10⟩ 12 1 7 100) :=
  ⟨by decide, chooseFontSize_monotone_and_floored ⟨100, 10⟩ 12 1 7 50 100
    (by decide) (by decide)⟩

/-- Claim C8: `imagesToPDF` (converters.js lines 74-97) draws each image
with width at most `pageWidth - 20` and height at most `pageHeight - 20`,
preserves the source aspect ratio (stated cross-multiplied:
`iw * imgH = ih * imgW`), and centers the image at
`((pw - iw) / 2, (ph - ih) / 2)`. -/
theorem imagesToPDF_placement (pw ph imgW imgH : ℚ) (hw : 0 < imgW) (hh : 0 < imgH) :
    (Converters.imagePlacement pw ph imgW imgH).w ≤ pw - 20 ∧
    (Converters.imagePlacement pw ph imgW imgH).h ≤ ph - 20 ∧
    (Converters.imagePlacement pw ph imgW imgH).w * imgH =
      (Converters.imagePlacement pw ph imgW imgH).h * imgW ∧
    (Converters.imagePlacement pw ph imgW imgH).x =
      (pw - (Converters.imagePlacement pw ph imgW imgH).w) / 2 ∧
    (Converters.imagePlacement pw ph imgW imgH).y =
      (ph - (Converters.imagePlacement pw ph imgW imgH).h) / 2 := by
  rw [Converters.imagePlacement]
  by_cases hc : imgH * (pw - 20) / imgW > ph - 20
  · rw [if_pos hc]
    refine ⟨?_, le_refl _, ?_, rfl, rfl⟩
    · show imgW * (ph - 20) / imgH ≤ pw - 20
      rw [div_le_iff₀ hh]
      have hlt : (ph - 20) * imgW < imgH * (pw - 20) := (lt_div_iff₀ hw).mp hc
      calc imgW * (ph - 20) = (ph - 20) * imgW := mul_comm _ _
        _ ≤ imgH * (pw - 20) := le_of_lt hlt
        _ = (pw - 20) * imgH := mul_comm _ _
    · show imgW * (ph - 20) / imgH * imgH = (ph - 20) * imgW
      rw [div_mul_cancel₀ _ (ne_of_gt hh)]
      exact mul_comm _ _
  · rw [if_neg hc]
    push_neg at hc
    refine ⟨le_refl _, hc, ?_, rfl, rfl⟩
    show (pw - 20) * imgH = imgH * (pw - 20) / imgW * imgW
    rw [div_mul_cancel₀ _ (ne_of_gt hw)]
    exact mul_comm _ _

theorem imagesToPDF_placement_witness :
    (0 < (100 : ℚ) ∧ 0 < (50 : ℚ)) ∧
    ((Converters.imagePlacement 210 297 100 50).w ≤ 210 - 20 ∧
    (Converters.imagePlacement 210 297 100 50).h ≤ 297 - 20 ∧
    (Converters.imagePlacement 210 297 100 50).w * 50 =
      (Converters.imagePlacement 210 297 100 50).h * 100 ∧
    (Converters.imagePlacement 210 297 100 50).x =
      (210 - (Converters.imagePlacement 210 297 100 50).w) / 2 ∧
    (Converters.imagePlacement 210 297 100 50).y =
      (297 - (Converters.imagePlacement 210 297 100 50).h) / 2) :=
  ⟨⟨by norm_num, by norm_num⟩,
    imagesToPDF_placement 210 297 100 50 (by norm_num) (by norm_num)⟩
